import Mathlib

/-!
Verification of the ratio computation and benchmarking engine of
`src/ratioin.py` (financial-analysis-app).

The engine is embedded shallowly over `ℚ`:
* a Python number-or-`None` becomes `Option ℚ`;
* the dict built by `get_financial_data` (the input of `calculate_ratios`)
  becomes the record `FinancialFacts` with one optional field per key;
* a Python ratio dict (ordered, string-keyed) becomes an association list
  `RatioSet` over the closed identifier type `RatioName`, in insertion order;
* `dict.get` becomes `getRatio` (a missing key and a key stored with value
  `None` both read back as `none`, exactly as in Python);
* the comparison loop of the Flask route `index` (lines 329-360) becomes
  `compareRatios` producing `ComparisonRecord`s, with the fixed
  `HIGHER_IS_BETTER` direction table.
-/

/-- The thirteen ratio identifiers, in the insertion order of
`calculate_ratios` (src/ratioin.py lines 122-136). -/
inductive RatioName : Type
  | current_ratio
  | quick_ratio
  | debt_to_equity
  | debt_to_assets
  | interest_coverage
  | gross_profit_margin
  | net_profit_margin
  | roe
  | roa
  | asset_turnover
  | pe_ratio
  | ev_to_ebitda
  | price_to_book
  deriving DecidableEq

/-- The canonical ratio identifier list, in the order the ratio dict is
built by `calculate_ratios`. -/
def ratioNames : List RatioName :=
  [RatioName.current_ratio, RatioName.quick_ratio, RatioName.debt_to_equity,
   RatioName.debt_to_assets, RatioName.interest_coverage,
   RatioName.gross_profit_margin, RatioName.net_profit_margin,
   RatioName.roe, RatioName.roa, RatioName.asset_turnover,
   RatioName.pe_ratio, RatioName.ev_to_ebitda, RatioName.price_to_book]

/-- An ordered string-keyed Python ratio dict: an association list from
ratio identifiers to an optional value (`none` = Python `None`,
"undefined"). -/
abbrev RatioSet : Type := List (RatioName × Option ℚ)

/-- Python's `dict.get(name)` on a ratio dict: the first value stored under
`r`, and `none` when the key is missing.  A key stored with value `None`
and a missing key both yield `none`, exactly as `dict.get` conflates them. -/
def getRatio (rs : RatioSet) (r : RatioName) : Option ℚ :=
  match rs with
  | [] => none
  | (n, v) :: rest => if n = r then v else getRatio rest r

/-- The data dict built by `get_financial_data` (src/ratioin.py lines
99-110), which is the input of `calculate_ratios`: one optional numeric
field per key.  `avg_total_assets` and `avg_total_equity` are precomputed
there from the two most recent balance-sheet columns. -/
structure FinancialFacts where
  current_assets : Option ℚ
  current_liabilities : Option ℚ
  inventory : Option ℚ
  total_debt : Option ℚ
  total_equity : Option ℚ
  cash : Option ℚ
  total_assets : Option ℚ
  total_revenue : Option ℚ
  gross_profit : Option ℚ
  ebit : Option ℚ
  ebitda : Option ℚ
  interest_expense : Option ℚ
  net_income : Option ℚ
  avg_total_assets : Option ℚ
  avg_total_equity : Option ℚ
  current_share_price : Option ℚ
  eps : Option ℚ
  market_cap : Option ℚ
  book_value_per_share : Option ℚ
  deriving DecidableEq

/-- `safe_divide(num, den)` (src/ratioin.py line 120):
`None if den is None or den == 0 or num is None else num / den`. -/
def safe_divide (num den : Option ℚ) : Option ℚ :=
  match den, num with
  | none, _ => none
  | some _, none => none
  | some d, some n => if d = 0 then none else some (n / d)

/-- `calculate_ratios(data)` (src/ratioin.py lines 116-137).  The input is
`none` for Python falsy `data` (the `if not data: return {}` branch); a
present record builds the thirteen entries in source order.  `x or 0`
on an optional value is `Option.getD x 0`. -/
def calculate_ratios (data : Option FinancialFacts) : RatioSet :=
  match data with
  | none => []
  | some d =>
    [(RatioName.current_ratio, safe_divide d.current_assets d.current_liabilities),
     (RatioName.quick_ratio,
       safe_divide (some (d.current_assets.getD 0 - d.inventory.getD 0)) d.current_liabilities),
     (RatioName.debt_to_equity, safe_divide d.total_debt d.total_equity),
     (RatioName.debt_to_assets, safe_divide d.total_debt d.total_assets),
     (RatioName.interest_coverage, safe_divide d.ebit d.interest_expense),
     (RatioName.gross_profit_margin, safe_divide d.gross_profit d.total_revenue),
     (RatioName.net_profit_margin, safe_divide d.net_income d.total_revenue),
     (RatioName.roe, safe_divide d.net_income d.avg_total_equity),
     (RatioName.roa, safe_divide d.net_income d.avg_total_assets),
     (RatioName.asset_turnover, safe_divide d.total_revenue d.avg_total_assets),
     (RatioName.pe_ratio, safe_divide d.current_share_price d.eps),
     (RatioName.ev_to_ebitda,
       safe_divide (some (d.market_cap.getD 0 + d.total_debt.getD 0 - d.cash.getD 0)) d.ebitda),
     (RatioName.price_to_book, safe_divide d.current_share_price d.book_value_per_share)]

/-- The (numerator, denominator) pair that `calculate_ratios` hands to
`safe_divide` for each ratio, read off src/ratioin.py lines 122-136. -/
def numden (f : FinancialFacts) : RatioName → Option ℚ × Option ℚ
  | RatioName.current_ratio => (f.current_assets, f.current_liabilities)
  | RatioName.quick_ratio =>
      (some (f.current_assets.getD 0 - f.inventory.getD 0), f.current_liabilities)
  | RatioName.debt_to_equity => (f.total_debt, f.total_equity)
  | RatioName.debt_to_assets => (f.total_debt, f.total_assets)
  | RatioName.interest_coverage => (f.ebit, f.interest_expense)
  | RatioName.gross_profit_margin => (f.gross_profit, f.total_revenue)
  | RatioName.net_profit_margin => (f.net_income, f.total_revenue)
  | RatioName.roe => (f.net_income, f.avg_total_equity)
  | RatioName.roa => (f.net_income, f.avg_total_assets)
  | RatioName.asset_turnover => (f.total_revenue, f.avg_total_assets)
  | RatioName.pe_ratio => (f.current_share_price, f.eps)
  | RatioName.ev_to_ebitda =>
      (some (f.market_cap.getD 0 + f.total_debt.getD 0 - f.cash.getD 0), f.ebitda)
  | RatioName.price_to_book => (f.current_share_price, f.book_value_per_share)

/-- The value the benchmark dict stores for one ratio name
(src/ratioin.py lines 145-146): the arithmetic mean of the values defined
across the peers, `none` when no peer defines the ratio. -/
def benchmarkValue (l : List RatioSet) (r : RatioName) : Option ℚ :=
  let valid := l.filterMap (fun rs => getRatio rs r)
  if valid = [] then none else some (valid.sum / (valid.length : ℚ))

/-- `calculate_benchmark_averages(competitor_ratios_list)` (src/ratioin.py
lines 139-147): empty input gives the empty dict; otherwise one entry per
key of the first peer's dict, in that order. -/
def calculate_benchmark_averages (l : List RatioSet) : RatioSet :=
  match l with
  | [] => []
  | first :: rest =>
      (first.map Prod.fst).map (fun name => (name, benchmarkValue (first :: rest) name))

/-- The qualitative verdict of one comparison row. -/
inductive Verdict : Type
  | good
  | poor
  | neutral
  | dataMissing
  | noBenchmark
  deriving DecidableEq

/-- One row of the analysis table built by the route `index`
(src/ratioin.py lines 329-360): the ratio, the company value, the
benchmark value (`none` where the source renders a dash or N/A), the
percentage deviation (`none` where the source shows none), the verdict. -/
structure ComparisonRecord where
  name : RatioName
  company_value : Option ℚ
  benchmark_value : Option ℚ
  deviation : Option ℚ
  verdict : Verdict
  deriving DecidableEq

/-- The `HIGHER_IS_BETTER` direction table (src/ratioin.py lines 8-13):
`some true` = higher is better, `some false` = lower is better,
`none` = neutral/informational. -/
def HIGHER_IS_BETTER : RatioName → Option Bool
  | RatioName.current_ratio => some true
  | RatioName.quick_ratio => some true
  | RatioName.debt_to_equity => some false
  | RatioName.debt_to_assets => some false
  | RatioName.interest_coverage => some true
  | RatioName.gross_profit_margin => some true
  | RatioName.net_profit_margin => some true
  | RatioName.roe => some true
  | RatioName.roa => some true
  | RatioName.asset_turnover => some true
  | RatioName.pe_ratio => none
  | RatioName.ev_to_ebitda => none
  | RatioName.price_to_book => none

/-- One iteration of the analysis loop (src/ratioin.py lines 330-360):
classify one ratio given the company value and the looked-up benchmark
value.  The deviation is `((cv - bv) / abs(bv)) * 100 if bv != 0 else 0`,
and the verdict branch mirrors lines 350-358. -/
def classifyRow (name : RatioName) (company_value benchmark_value : Option ℚ) :
    ComparisonRecord :=
  match company_value with
  | none => ⟨name, none, none, none, Verdict.dataMissing⟩
  | some v =>
    match benchmark_value with
    | none => ⟨name, some v, none, none, Verdict.noBenchmark⟩
    | some b =>
      let diff := if b ≠ 0 then (v - b) / |b| * 100 else 0
      match HIGHER_IS_BETTER name with
      | none => ⟨name, some v, some b, some diff, Verdict.neutral⟩
      | some dir =>
        if (b < v ∧ dir = true) ∨ (v < b ∧ dir = false) then
          ⟨name, some v, some b, some diff, Verdict.good⟩
        else
          ⟨name, some v, some b, some diff, Verdict.poor⟩

/-- The whole analysis loop (src/ratioin.py lines 329-360): one row per
entry of the company's ratio dict, in its order, each against
`benchmarks.get(ratio_name)`. -/
def compareRatios (target benchmarks : RatioSet) : List ComparisonRecord :=
  target.map (fun p => classifyRow p.1 p.2 (getRatio benchmarks p.1))

/-- A `FinancialFacts` record with every field absent. -/
def emptyFacts : FinancialFacts :=
  ⟨none, none, none, none, none, none, none, none, none, none,
   none, none, none, none, none, none, none, none, none⟩

/-- Facts with absent `current_assets` but present inventory and current
liabilities: the input showing that `quick_ratio` does not propagate an
absent `current_assets`. -/
def cexFacts : FinancialFacts :=
  { emptyFacts with inventory := some 50, current_liabilities := some 100 }

/-- A fully populated sample `RatioSet`: every canonical ratio present with
value 3. -/
def sampleA : RatioSet := ratioNames.map (fun n => (n, some 3))

/-- A sample `RatioSet` with every canonical ratio present but undefined. -/
def sampleB : RatioSet := ratioNames.map (fun n => (n, none))

/-- A one-entry target ratio dict: `current_ratio` defined as 2. -/
def targetSample : RatioSet := [(RatioName.current_ratio, some 2)]

/-- A one-entry benchmark ratio dict: `current_ratio` averaged to 1. -/
def benchSample : RatioSet := [(RatioName.current_ratio, some 1)]

/-- The comparison row `compareRatios targetSample benchSample` produces. -/
def recSample : ComparisonRecord :=
  classifyRow RatioName.current_ratio (some 2) (getRatio benchSample RatioName.current_ratio)

theorem getRatio_map_fun (f : RatioName → Option ℚ) (names : List RatioName)
    (r : RatioName) :
    getRatio (names.map (fun n => (n, f n))) r = if r ∈ names then f r else none := by
  induction names with
  | nil => rfl
  | cons a tl ih =>
    simp only [List.map_cons, getRatio, List.mem_cons]
    by_cases h : a = r
    · subst h
      simp
    · have h' : ¬ r = a := fun hh => h hh.symm
      simp [h, h', ih]

theorem mem_ratioNames (r : RatioName) : r ∈ ratioNames := by
  cases r <;> simp [ratioNames]

theorem safe_divide_eq_none (num den : Option ℚ)
    (h : den = none ∨ den = some 0 ∨ num = none) : safe_divide num den = none := by
  rcases den with _ | d
  · rfl
  · rcases num with _ | n
    · rfl
    · rcases h with h | h | h
      · exact absurd h (by simp)
      · simp only [Option.some.injEq] at h
        simp [safe_divide, h]
      · exact absurd h (by simp)

theorem safe_divide_eq_some (num den : Option ℚ) (v : ℚ)
    (h : safe_divide num den = some v) :
    ∃ a b, num = some a ∧ den = some b ∧ b ≠ 0 ∧ v = a / b := by
  rcases den with _ | d
  · simp [safe_divide] at h
  · rcases num with _ | n
    · simp [safe_divide] at h
    · by_cases hd : d = 0
      · simp [safe_divide, hd] at h
      · refine ⟨n, d, rfl, rfl, hd, ?_⟩
        simp only [safe_divide, if_neg hd, Option.some.injEq] at h
        exact h.symm

theorem calculate_ratios_eq_safe_divide (f : FinancialFacts) (r : RatioName) :
    getRatio (calculate_ratios (some f)) r = safe_divide (numden f r).1 (numden f r).2 := by
  cases r <;> rfl

/-- Claim C1: for every `FinancialFacts` input and every ratio, the value
stored by `calculate_ratios` is exactly `safe_divide` of the ratio's
numerator and denominator; whenever the denominator is absent or exactly
zero, or the numerator is absent, the ratio is undefined; and every defined
value is a genuine quotient by a nonzero rational, so the computation is
total (never raises) and never produces an infinite or NaN value. -/
theorem C1_safe_divide_guards (f : FinancialFacts) (r : RatioName) :
    (getRatio (calculate_ratios (some f)) r = safe_divide (numden f r).1 (numden f r).2)
    ∧ ((numden f r).2 = none ∨ (numden f r).2 = some 0 ∨ (numden f r).1 = none →
        getRatio (calculate_ratios (some f)) r = none)
    ∧ (∀ v : ℚ, getRatio (calculate_ratios (some f)) r = some v →
        ∃ a b, (numden f r).1 = some a ∧ (numden f r).2 = some b ∧ b ≠ 0 ∧ v = a / b) := by
  have hr := calculate_ratios_eq_safe_divide f r
  refine ⟨hr, fun h => ?_, fun v hv => ?_⟩
  · rw [hr]
    exact safe_divide_eq_none _ _ h
  · rw [hr] at hv
    exact safe_divide_eq_some _ _ v hv

/-- Claim C6 counterexample: with `current_assets` absent, `inventory` = 50
and `current_liabilities` = 100, the code yields
`quick_ratio = (0 - 50) / 100 = -1/2`, a defined value, where the claim
demands "undefined whenever current_assets is absent". -/
theorem C6_counterexample :
    cexFacts.current_assets = none
    ∧ getRatio (calculate_ratios (some cexFacts)) RatioName.quick_ratio = some (-(1/2)) := by
  constructor
  · rfl
  · show safe_divide (some ((0 : ℚ) - 50)) (some 100) = some (-(1/2))
    norm_num [safe_divide]

/-- Claim C6 (amended): `quick_ratio` is
`((current_assets absent treated as 0) - (inventory absent treated as 0))
/ current_liabilities`; an absent `current_assets` is treated as 0 exactly
like an absent inventory, so `quick_ratio` is undefined precisely when
`current_liabilities` is absent or exactly zero — it is defined even when
`current_assets` is absent, provided `current_liabilities` is present and
nonzero. -/
theorem C6_quick_ratio (f : FinancialFacts) :
    (getRatio (calculate_ratios (some f)) RatioName.quick_ratio
      = safe_divide (some (f.current_assets.getD 0 - f.inventory.getD 0)) f.current_liabilities)
    ∧ (getRatio (calculate_ratios (some f)) RatioName.quick_ratio = none
        ↔ f.current_liabilities = none ∨ f.current_liabilities = some 0) := by
  refine ⟨rfl, ?_⟩
  show safe_divide (some (f.current_assets.getD 0 - f.inventory.getD 0)) f.current_liabilities
        = none ↔ _
  rcases f.current_liabilities with _ | d
  · simp [safe_divide]
  · by_cases hd : d = 0
    · simp [safe_divide, hd]
    · simp [safe_divide, hd]

/-- Claim C8 counterexample: `calculate_benchmark_averages` on the empty
peer list returns the empty dict; in particular the canonical identifier
`current_ratio` is not present (mapped to undefined or otherwise), where
the claim demands every canonical identifier present and mapped to
undefined. -/
theorem C8_counterexample :
    calculate_benchmark_averages ([] : List RatioSet) = ([] : RatioSet)
    ∧ (RatioName.current_ratio, (none : Option ℚ))
        ∉ calculate_benchmark_averages ([] : List RatioSet) := by
  refine ⟨rfl, ?_⟩
  intro h
  simp [calculate_benchmark_averages] at h

/-- Claim C8 (amended): `calculate_benchmark_averages` on the empty peer
list returns the empty `RatioSet`, with no identifiers present; looking any
canonical ratio identifier up in that result yields undefined. -/
theorem C8_empty_average :
    calculate_benchmark_averages ([] : List RatioSet) = ([] : RatioSet)
    ∧ ∀ r : RatioName, getRatio (calculate_benchmark_averages ([] : List RatioSet)) r = none :=
  ⟨rfl, fun _ => rfl⟩

/-- Claim C9 counterexample: `calculate_ratios` on absent/empty
`FinancialFacts` (the representation of an upstream retrieval failure)
returns the empty dict; the canonical identifier `current_ratio` is not
present at all, where the claim demands every canonical identifier present
and mapped to undefined. -/
theorem C9_counterexample :
    calculate_ratios none = ([] : RatioSet)
    ∧ (RatioName.current_ratio, (none : Option ℚ)) ∉ calculate_ratios none := by
  refine ⟨rfl, ?_⟩
  intro h
  simp [calculate_ratios] at h

/-- Claim C9 (amended): `calculate_ratios` on absent/empty
`FinancialFacts` returns the empty `RatioSet` (no entries) rather than
raising — the function is total — and looking any canonical ratio
identifier up in that result yields undefined. -/
theorem C9_empty_facts :
    calculate_ratios none = ([] : RatioSet)
    ∧ ∀ r : RatioName, getRatio (calculate_ratios none) r = none :=
  ⟨rfl, fun _ => rfl⟩

theorem getRatio_benchmark_cons (first : RatioSet) (rest : List RatioSet) (r : RatioName) :
    getRatio (calculate_benchmark_averages (first :: rest)) r =
      if r ∈ first.map Prod.fst then benchmarkValue (first :: rest) r else none := by
  show getRatio ((first.map Prod.fst).map
      (fun name => (name, benchmarkValue (first :: rest) name))) r = _
  exact getRatio_map_fun _ _ r

theorem exists_upper_mem (xs : List ℚ) : xs ≠ [] → ∃ M, M ∈ xs ∧ ∀ x ∈ xs, x ≤ M := by
  induction xs with
  | nil => intro h; exact absurd rfl h
  | cons a tl ih =>
    intro _
    rcases eq_or_ne tl [] with htl | htl
    · subst htl
      exact ⟨a, by simp, by simp⟩
    · obtain ⟨M, hM, hall⟩ := ih htl
      rcases le_total a M with hc | hc
      · refine ⟨M, List.mem_cons_of_mem _ hM, ?_⟩
        intro x hx
        rcases List.mem_cons.mp hx with rfl | hx
        · exact hc
        · exact hall x hx
      · refine ⟨a, List.mem_cons_self _ _, ?_⟩
        intro x hx
        rcases List.mem_cons.mp hx with rfl | hx
        · exact le_refl x
        · exact le_trans (hall x hx) hc

theorem exists_lower_mem (xs : List ℚ) : xs ≠ [] → ∃ m, m ∈ xs ∧ ∀ x ∈ xs, m ≤ x := by
  induction xs with
  | nil => intro h; exact absurd rfl h
  | cons a tl ih =>
    intro _
    rcases eq_or_ne tl [] with htl | htl
    · subst htl
      exact ⟨a, by simp, by simp⟩
    · obtain ⟨m, hm, hall⟩ := ih htl
      rcases le_total m a with hc | hc
      · refine ⟨m, List.mem_cons_of_mem _ hm, ?_⟩
        intro x hx
        rcases List.mem_cons.mp hx with rfl | hx
        · exact hc
        · exact hall x hx
      · refine ⟨a, List.mem_cons_self _ _, ?_⟩
        intro x hx
        rcases List.mem_cons.mp hx with rfl | hx
        · exact le_refl x
        · exact le_trans hc (hall x hx)

theorem mean_bounds (xs : List ℚ) (h : xs ≠ []) :
    (∃ m ∈ xs, m ≤ xs.sum / (xs.length : ℚ))
    ∧ (∃ M ∈ xs, xs.sum / (xs.length : ℚ) ≤ M) := by
  have hlen : (0 : ℚ) < (xs.length : ℚ) := by
    exact_mod_cast List.length_pos.mpr h
  constructor
  · obtain ⟨m, hm, hall⟩ := exists_lower_mem xs h
    refine ⟨m, hm, ?_⟩
    rw [le_div_iff₀ hlen]
    calc m * (xs.length : ℚ) = (xs.length : ℚ) * m := mul_comm _ _
      _ = xs.length • m := (nsmul_eq_mul _ _).symm
      _ ≤ xs.sum := List.card_nsmul_le_sum xs m hall
  · obtain ⟨M, hM, hall⟩ := exists_upper_mem xs h
    refine ⟨M, hM, ?_⟩
    rw [div_le_iff₀ hlen]
    calc xs.sum ≤ xs.length • M := List.sum_le_card_nsmul xs M hall
      _ = (xs.length : ℚ) * M := nsmul_eq_mul _ _
      _ = M * (xs.length : ℚ) := mul_comm _ _

/-- Claim C2: for every non-empty list of peer `RatioSet`s (each carrying
the fixed canonical identifier set, per the data model) and every ratio
identifier, the benchmark entry is the mean of exactly the defined peer
values — peers whose value is undefined contribute to neither the sum nor
the count — and in particular a single defined peer value `v` makes the
benchmark value `v`. -/
theorem C2_average_excludes_undefined (l : List RatioSet) (hne : l ≠ [])
    (hwf : ∀ rs ∈ l, rs.map Prod.fst = ratioNames) (r : RatioName) :
    (getRatio (calculate_benchmark_averages l) r =
      if l.filterMap (fun rs => getRatio rs r) = [] then none
      else some ((l.filterMap (fun rs => getRatio rs r)).sum
                  / ((l.filterMap (fun rs => getRatio rs r)).length : ℚ)))
    ∧ (∀ v : ℚ, l.filterMap (fun rs => getRatio rs r) = [v] →
        getRatio (calculate_benchmark_averages l) r = some v) := by
  cases l with
  | nil => exact absurd rfl hne
  | cons first rest =>
    have hk : first.map Prod.fst = ratioNames := hwf first (List.mem_cons_self _ _)
    have hg : getRatio (calculate_benchmark_averages (first :: rest)) r
        = benchmarkValue (first :: rest) r := by
      rw [getRatio_benchmark_cons, hk, if_pos (mem_ratioNames r)]
    constructor
    · rw [hg]
      rfl
    · intro v hv
      rw [hg]
      simp [benchmarkValue, hv]

theorem C2_witness :
    ([sampleA, sampleB] : List RatioSet) ≠ []
    ∧ (∀ rs ∈ ([sampleA, sampleB] : List RatioSet), rs.map Prod.fst = ratioNames)
    ∧ ((getRatio (calculate_benchmark_averages [sampleA, sampleB]) RatioName.current_ratio =
        if [sampleA, sampleB].filterMap (fun rs => getRatio rs RatioName.current_ratio) = []
        then none
        else some (([sampleA, sampleB].filterMap
                      (fun rs => getRatio rs RatioName.current_ratio)).sum
                  / (([sampleA, sampleB].filterMap
                      (fun rs => getRatio rs RatioName.current_ratio)).length : ℚ)))
      ∧ (∀ v : ℚ,
          [sampleA, sampleB].filterMap (fun rs => getRatio rs RatioName.current_ratio) = [v] →
          getRatio (calculate_benchmark_averages [sampleA, sampleB]) RatioName.current_ratio
            = some v)) :=
  ⟨by decide, by decide,
    C2_average_excludes_undefined [sampleA, sampleB] (by decide) (by decide)
      RatioName.current_ratio⟩

/-- Claim C5: `calculate_benchmark_averages` is invariant under permutation
of its input list of peer `RatioSet`s (each carrying the fixed canonical
identifier set, per the data model). -/
theorem C5_perm_invariant (l l' : List RatioSet) (hp : List.Perm l l')
    (hwf : ∀ rs ∈ l, rs.map Prod.fst = ratioNames) :
    calculate_benchmark_averages l = calculate_benchmark_averages l' := by
  have hbv : ∀ r, benchmarkValue l r = benchmarkValue l' r := by
    intro r
    have hfp : List.Perm (l.filterMap (fun rs => getRatio rs r))
        (l'.filterMap (fun rs => getRatio rs r)) := hp.filterMap _
    simp only [benchmarkValue]
    rcases eq_or_ne (l.filterMap (fun rs => getRatio rs r)) [] with he | he
    · have he' : l'.filterMap (fun rs => getRatio rs r) = [] := by
        rw [he] at hfp
        exact hfp.symm.eq_nil
      rw [he, he']
    · have he' : l'.filterMap (fun rs => getRatio rs r) ≠ [] := by
        intro hh
        rw [hh] at hfp
        exact he hfp.eq_nil
      rw [if_neg he, if_neg he', hfp.sum_eq, hfp.length_eq]
  cases l with
  | nil =>
    rw [hp.symm.eq_nil]
  | cons first rest =>
    cases l' with
    | nil => exact absurd hp.eq_nil (by simp)
    | cons first' rest' =>
      have hk : first.map Prod.fst = ratioNames := hwf first (List.mem_cons_self _ _)
      have hk' : first'.map Prod.fst = ratioNames :=
        hwf first' (hp.mem_iff.mpr (List.mem_cons_self _ _))
      show (first.map Prod.fst).map (fun name => (name, benchmarkValue (first :: rest) name))
          = (first'.map Prod.fst).map
              (fun name => (name, benchmarkValue (first' :: rest') name))
      rw [hk, hk']
      have hfun : (fun name => (name, benchmarkValue (first :: rest) name))
          = (fun name => (name, benchmarkValue (first' :: rest') name)) := by
        funext n
        rw [hbv n]
      rw [hfun]

theorem C5_witness :
    List.Perm ([sampleA, sampleB] : List RatioSet) [sampleB, sampleA]
    ∧ (∀ rs ∈ ([sampleA, sampleB] : List RatioSet), rs.map Prod.fst = ratioNames)
    ∧ calculate_benchmark_averages [sampleA, sampleB]
        = calculate_benchmark_averages [sampleB, sampleA] := by
  have hp : List.Perm ([sampleA, sampleB] : List RatioSet) [sampleB, sampleA] :=
    List.Perm.swap sampleB sampleA []
  exact ⟨hp, by decide, C5_perm_invariant _ _ hp (by decide)⟩

/-- Claim C10: whenever the computed benchmark value for a ratio is
defined, it lies between the minimum and the maximum of the defined peer
values for that ratio: some defined peer value is at most the benchmark and
some defined peer value is at least the benchmark. -/
theorem C10_benchmark_between (l : List RatioSet) (r : RatioName) (b : ℚ)
    (h : getRatio (calculate_benchmark_averages l) r = some b) :
    (∃ m ∈ l.filterMap (fun rs => getRatio rs r), m ≤ b)
    ∧ (∃ M ∈ l.filterMap (fun rs => getRatio rs r), b ≤ M) := by
  cases l with
  | nil => exact absurd h (by simp [calculate_benchmark_averages, getRatio])
  | cons first rest =>
    rw [getRatio_benchmark_cons] at h
    by_cases hmem : r ∈ first.map Prod.fst
    · rw [if_pos hmem] at h
      have hvalid : (first :: rest).filterMap (fun rs => getRatio rs r) ≠ [] := by
        intro hemp
        simp [benchmarkValue, hemp] at h
      have hb : b = ((first :: rest).filterMap (fun rs => getRatio rs r)).sum
          / (((first :: rest).filterMap (fun rs => getRatio rs r)).length : ℚ) := by
        simp only [benchmarkValue, if_neg hvalid, Option.some.injEq] at h
        exact h.symm
      rw [hb]
      exact mean_bounds _ hvalid
    · rw [if_neg hmem] at h
      exact absurd h (by simp)

theorem C10_witness :
    getRatio (calculate_benchmark_averages [sampleA]) RatioName.current_ratio = some 3
    ∧ ((∃ m ∈ [sampleA].filterMap (fun rs => getRatio rs RatioName.current_ratio), m ≤ 3)
      ∧ (∃ M ∈ [sampleA].filterMap (fun rs => getRatio rs RatioName.current_ratio), 3 ≤ M)) := by
  have h0 : getRatio (calculate_benchmark_averages [sampleA]) RatioName.current_ratio
      = some 3 := by
    rw [getRatio_benchmark_cons]
    rw [show sampleA.map Prod.fst = ratioNames from by decide]
    rw [if_pos (mem_ratioNames _)]
    have hflt : ([sampleA] : List RatioSet).filterMap
        (fun rs => getRatio rs RatioName.current_ratio) = [(3 : ℚ)] := by decide
    simp [benchmarkValue, hflt]
  exact ⟨h0, C10_benchmark_between [sampleA] RatioName.current_ratio 3 h0⟩

theorem classifyRow_name (n : RatioName) (cv bv : Option ℚ) :
    (classifyRow n cv bv).name = n := by
  rcases cv with _ | v
  · rfl
  rcases bv with _ | b
  · rfl
  rcases hd : HIGHER_IS_BETTER n with _ | dir
  · simp [classifyRow, hd]
  · simp [classifyRow, hd, apply_ite ComparisonRecord.name]

theorem classifyRow_fields (n : RatioName) (v b : ℚ) :
    (classifyRow n (some v) (some b)).company_value = some v
    ∧ (classifyRow n (some v) (some b)).benchmark_value = some b
    ∧ (classifyRow n (some v) (some b)).deviation
        = some (if b ≠ 0 then (v - b) / |b| * 100 else 0) := by
  rcases hd : HIGHER_IS_BETTER n with _ | dir
  · simp [classifyRow, hd]
  · simp [classifyRow, hd, apply_ite ComparisonRecord.company_value,
      apply_ite ComparisonRecord.benchmark_value, apply_ite ComparisonRecord.deviation]

theorem classifyRow_verdict_some (n : RatioName) (v b : ℚ) :
    (HIGHER_IS_BETTER n = some true →
      ((classifyRow n (some v) (some b)).verdict = Verdict.good ↔ b < v)
      ∧ ((classifyRow n (some v) (some b)).verdict = Verdict.poor ↔ ¬ b < v))
    ∧ (HIGHER_IS_BETTER n = some false →
      ((classifyRow n (some v) (some b)).verdict = Verdict.good ↔ v < b)
      ∧ ((classifyRow n (some v) (some b)).verdict = Verdict.poor ↔ ¬ v < b))
    ∧ (HIGHER_IS_BETTER n = none →
      (classifyRow n (some v) (some b)).verdict = Verdict.neutral) := by
  refine ⟨fun h => ?_, fun h => ?_, fun h => ?_⟩
  · by_cases hvb : b < v <;> simp [classifyRow, h, hvb]
  · by_cases hvb : v < b <;> simp [classifyRow, h, hvb]
  · simp [classifyRow, h]

/-- Claim C3: for every row of the comparison, the verdict is DataMissing
exactly as the source assigns it when the target value is undefined (with
benchmark and deviation left blank); otherwise NoBenchmark when the
benchmark value is undefined; otherwise, when the direction policy for the
ratio is higher-is-better, Good exactly when target > benchmark and Poor
otherwise (equality yields Poor); when it is lower-is-better, Good exactly
when target < benchmark and Poor otherwise (equality yields Poor); and
when it is neutral, always Neutral. -/
theorem C3_verdict_policy (t bm : RatioSet) (rec : ComparisonRecord)
    (hmem : rec ∈ compareRatios t bm) :
    (rec.company_value = none →
      rec.verdict = Verdict.dataMissing
      ∧ rec.benchmark_value = none ∧ rec.deviation = none)
    ∧ (∀ v : ℚ, rec.company_value = some v → rec.benchmark_value = none →
        rec.verdict = Verdict.noBenchmark)
    ∧ (∀ v w : ℚ, rec.company_value = some v → rec.benchmark_value = some w →
        (HIGHER_IS_BETTER rec.name = some true →
          (rec.verdict = Verdict.good ↔ w < v)
          ∧ (rec.verdict = Verdict.poor ↔ ¬ w < v))
        ∧ (HIGHER_IS_BETTER rec.name = some false →
          (rec.verdict = Verdict.good ↔ v < w)
          ∧ (rec.verdict = Verdict.poor ↔ ¬ v < w))
        ∧ (HIGHER_IS_BETTER rec.name = none → rec.verdict = Verdict.neutral)) := by
  obtain ⟨p, hp, rfl⟩ := List.mem_map.mp hmem
  rcases p with ⟨n, cv⟩
  dsimp only
  rcases cv with _ | v0
  · refine ⟨fun _ => ⟨rfl, rfl, rfl⟩, fun v hv _ => ?_, fun v w hv _ => ?_⟩
    · exact absurd hv (by simp [classifyRow])
    · exact absurd hv (by simp [classifyRow])
  · rcases hbm : getRatio bm n with _ | b
    · refine ⟨fun h => ?_, fun v _ _ => rfl, fun v w _ hw => ?_⟩
      · exact absurd h (by simp [classifyRow])
      · exact absurd hw (by simp [classifyRow])
    · have hfields := classifyRow_fields n v0 b
      refine ⟨fun h => ?_, fun v hv hw => ?_, fun v w hv hw => ?_⟩
      · rw [hfields.1] at h
        exact absurd h (by simp)
      · rw [hfields.2.1] at hw
        exact absurd hw (by simp)
      · rw [hfields.1] at hv
        rw [hfields.2.1] at hw
        have hvv : v0 = v := Option.some.inj hv
        have hbb : b = w := Option.some.inj hw
        subst hvv
        subst hbb
        rw [classifyRow_name]
        exact classifyRow_verdict_some n v0 b

theorem C3_witness :
    recSample ∈ compareRatios targetSample benchSample
    ∧ ((recSample.company_value = none →
        recSample.verdict = Verdict.dataMissing
        ∧ recSample.benchmark_value = none ∧ recSample.deviation = none)
      ∧ (∀ v : ℚ, recSample.company_value = some v → recSample.benchmark_value = none →
          recSample.verdict = Verdict.noBenchmark)
      ∧ (∀ v w : ℚ, recSample.company_value = some v → recSample.benchmark_value = some w →
          (HIGHER_IS_BETTER recSample.name = some true →
            (recSample.verdict = Verdict.good ↔ w < v)
            ∧ (recSample.verdict = Verdict.poor ↔ ¬ w < v))
          ∧ (HIGHER_IS_BETTER recSample.name = some false →
            (recSample.verdict = Verdict.good ↔ v < w)
            ∧ (recSample.verdict = Verdict.poor ↔ ¬ v < w))
          ∧ (HIGHER_IS_BETTER recSample.name = none →
            recSample.verdict = Verdict.neutral))) := by
  have hm : recSample ∈ compareRatios targetSample benchSample := List.Mem.head _
  exact ⟨hm, C3_verdict_policy targetSample benchSample recSample hm⟩

/-- Claim C4: for every comparison row whose target and benchmark values
are both defined, the percentage deviation is
`(target - benchmark) / abs(benchmark) * 100` when the benchmark is
nonzero, and exactly 0 when the benchmark is exactly zero. -/
theorem C4_deviation_formula (t bm : RatioSet) (rec : ComparisonRecord)
    (hmem : rec ∈ compareRatios t bm) (v w : ℚ)
    (hv : rec.company_value = some v) (hw : rec.benchmark_value = some w) :
    (w ≠ 0 → rec.deviation = some ((v - w) / |w| * 100))
    ∧ (w = 0 → rec.deviation = some 0) := by
  obtain ⟨p, hp, rfl⟩ := List.mem_map.mp hmem
  rcases p with ⟨n, cv⟩
  dsimp only at hv hw ⊢
  rcases cv with _ | v0
  · exact absurd hv (by simp [classifyRow])
  · rcases hbm : getRatio bm n with _ | b
    · rw [hbm] at hw
      exact absurd hw (by simp [classifyRow])
    · rw [hbm] at hv hw
      have hfields := classifyRow_fields n v0 b
      rw [hfields.1] at hv
      rw [hfields.2.1] at hw
      have hvv : v0 = v := Option.some.inj hv
      have hbb : b = w := Option.some.inj hw
      subst hvv
      subst hbb
      refine ⟨fun hne => ?_, fun heq => ?_⟩
      · rw [hfields.2.2, if_pos hne]
      · rw [hfields.2.2, if_neg (not_not.mpr heq)]

theorem C4_witness :
    recSample ∈ compareRatios targetSample benchSample
    ∧ recSample.company_value = some 2
    ∧ recSample.benchmark_value = some 1
    ∧ (((1 : ℚ) ≠ 0 → recSample.deviation = some (((2 : ℚ) - 1) / |(1 : ℚ)| * 100))
      ∧ ((1 : ℚ) = 0 → recSample.deviation = some 0)) := by
  have hm : recSample ∈ compareRatios targetSample benchSample := List.Mem.head _
  have hv : recSample.company_value = some 2 := rfl
  have hw : recSample.benchmark_value = some 1 := rfl
  exact ⟨hm, hv, hw, C4_deviation_formula targetSample benchSample recSample hm 2 1 hv hw⟩

/-- Claim C7 counterexample: the empty target `RatioSet` — exactly the
sentinel the spec assigns to "the target entity had no usable data" — makes
the comparison output empty, not one record per canonical ratio
identifier. -/
theorem C7_counterexample :
    compareRatios ([] : RatioSet) ([] : RatioSet) = ([] : List ComparisonRecord)
    ∧ (compareRatios ([] : RatioSet) ([] : RatioSet)).map ComparisonRecord.name
        ≠ ratioNames := by
  refine ⟨rfl, ?_⟩
  decide

/-- Claim C7 (amended): the comparison output has exactly one record per
entry of the target `RatioSet`, in the target's own order, regardless of
how many target or benchmark values are undefined; in particular a target
carrying the fixed canonical identifier set (any present facts) yields
exactly one record per canonical identifier in canonical order, while the
empty no-usable-data sentinel target yields an empty output. -/
theorem C7_output_shape (t bm : RatioSet) :
    ((compareRatios t bm).map ComparisonRecord.name = t.map Prod.fst)
    ∧ (t.map Prod.fst = ratioNames →
        (compareRatios t bm).map ComparisonRecord.name = ratioNames) := by
  have h1 : (compareRatios t bm).map ComparisonRecord.name = t.map Prod.fst := by
    unfold compareRatios
    rw [List.map_map]
    exact List.map_congr_left (fun p _ => classifyRow_name p.1 p.2 (getRatio bm p.1))
  exact ⟨h1, fun h => h1.trans h⟩
